import Mathlib

/-!
Verification of the GKE cluster-notifications message core.

The decode path (`PubSubMessage` / `Message` deserialization with the
`from_base64` data-field decoder) is embedded from `src/message.rs` and
`src/main.rs`.  The attribute classifier, formatter, enricher and webhook
payload builder live in modules that are not present under `src/`
(`message/attributes.rs`, `message/slack.rs`, the `impl Message` block); those
are modelled from the spec, as marked on each definition.
-/

namespace GkeNotif

/-! ## Base64 (standard alphabet, canonical padding)

Embeds the behaviour of `BASE64_STANDARD.decode` used by `from_base64` in
`src/message.rs`: standard alphabet `A-Z a-z 0-9 + /`, padding required and
canonical (length a multiple of 4, `=` only at the end, unused trailing bits
must be zero). -/

/-- Value of a base64 sextet (0..63) as a character of the standard alphabet. -/
def encSextet (k : Nat) : Char :=
  if k < 26 then Char.ofNat (65 + k)
  else if k < 52 then Char.ofNat (97 + (k - 26))
  else if k < 62 then Char.ofNat (48 + (k - 52))
  else if k = 62 then '+'
  else '/'

/-- Inverse table of the standard alphabet; `none` for any character outside it. -/
def decSextet (c : Char) : Option Nat :=
  let n := c.toNat
  if 65 ≤ n ∧ n ≤ 90 then some (n - 65)
  else if 97 ≤ n ∧ n ≤ 122 then some (n - 97 + 26)
  else if 48 ≤ n ∧ n ≤ 57 then some (n - 48 + 52)
  else if c = '+' then some 62
  else if c = '/' then some 63
  else none

/-- Standard base64 encoding of a byte list (bytes are `Nat`s below 256),
chunked three bytes to four characters, padded with `=`. -/
def b64EncodeBytes : List Nat → List Char
  | [] => []
  | [b0] => [encSextet (b0 / 4), encSextet (b0 % 4 * 16), '=', '=']
  | [b0, b1] =>
      [encSextet (b0 / 4), encSextet (b0 % 4 * 16 + b1 / 16),
       encSextet (b1 % 16 * 4), '=']
  | b0 :: b1 :: b2 :: rest =>
      encSextet (b0 / 4) :: encSextet (b0 % 4 * 16 + b1 / 16) ::
      encSextet (b1 % 16 * 4 + b2 / 64) :: encSextet (b2 % 64) ::
      b64EncodeBytes rest

/-- Standard base64 decoding with canonical padding, as `BASE64_STANDARD.decode`:
the length must be a multiple of four, `=` may appear only at the end of the
final quantum, and the unused low bits of the final symbol must be zero
(`decode_allow_trailing_bits = false`). -/
def b64DecodeChunks : List Char → Option (List Nat)
  | [] => some []
  | c0 :: c1 :: c2 :: c3 :: rest =>
      if c3 = '=' then
        if rest = [] then
          match decSextet c0, decSextet c1 with
          | some a, some b =>
              if c2 = '=' then
                if b % 16 = 0 then some [a * 4 + b / 16] else none
              else
                match decSextet c2 with
                | some c =>
                    if c % 4 = 0 then
                      some [a * 4 + b / 16, b % 16 * 16 + c / 4]
                    else none
                | none => none
          | _, _ => none
        else none
      else
        match decSextet c0, decSextet c1, decSextet c2, decSextet c3 with
        | some a, some b, some c, some d =>
            (b64DecodeChunks rest).map
              (fun tail => (a * 4 + b / 16) :: (b % 16 * 16 + c / 4) ::
                           (c % 4 * 64 + d) :: tail)
        | _, _, _, _ => none
  | _ => none

theorem decSextet_encSextet : ∀ k : Fin 64, decSextet (encSextet k.val) = some k.val := by
  decide

theorem encSextet_ne_pad : ∀ k : Fin 64, encSextet k.val ≠ '=' := by
  decide

theorem decSextet_encSextet_nat (k : Nat) (hk : k < 64) :
    decSextet (encSextet k) = some k :=
  decSextet_encSextet ⟨k, hk⟩

theorem encSextet_ne_pad_nat (k : Nat) (hk : k < 64) : encSextet k ≠ '=' :=
  encSextet_ne_pad ⟨k, hk⟩

theorem b64_decode_encode (bs : List Nat) (h : ∀ b ∈ bs, b < 256) :
    b64DecodeChunks (b64EncodeBytes bs) = some bs := by
  induction bs using b64EncodeBytes.induct with
  | case1 => rfl
  | case2 b0 =>
      have hb0 : b0 < 256 := h b0 (by simp)
      simp only [b64EncodeBytes, b64DecodeChunks,
        decSextet_encSextet_nat (b0 / 4) (by omega),
        decSextet_encSextet_nat (b0 % 4 * 16) (by omega),
        if_true]
      simp only [Option.some.injEq, List.cons.injEq, and_true,
        if_pos (show b0 % 4 * 16 % 16 = 0 by omega)]
      omega
  | case3 b0 b1 =>
      have hb0 : b0 < 256 := h b0 (by simp)
      have hb1 : b1 < 256 := h b1 (by simp)
      simp only [b64EncodeBytes, b64DecodeChunks,
        decSextet_encSextet_nat (b0 / 4) (by omega),
        decSextet_encSextet_nat (b0 % 4 * 16 + b1 / 16) (by omega),
        decSextet_encSextet_nat (b1 % 16 * 4) (by omega),
        if_true, if_neg (encSextet_ne_pad_nat (b1 % 16 * 4) (by omega))]
      simp only [if_pos (show b1 % 16 * 4 % 4 = 0 by omega),
        Option.some.injEq, List.cons.injEq, and_true]
      omega
  | case4 b0 b1 b2 rest ih =>
      have hb0 : b0 < 256 := h b0 (by simp)
      have hb1 : b1 < 256 := h b1 (by simp)
      have hb2 : b2 < 256 := h b2 (by simp)
      have hrest : ∀ b ∈ rest, b < 256 := fun b hb => h b (by simp [hb])
      simp only [b64EncodeBytes, b64DecodeChunks,
        if_neg (encSextet_ne_pad_nat (b2 % 64) (by omega)),
        decSextet_encSextet_nat (b0 / 4) (by omega),
        decSextet_encSextet_nat (b0 % 4 * 16 + b1 / 16) (by omega),
        decSextet_encSextet_nat (b1 % 16 * 4 + b2 / 64) (by omega),
        decSextet_encSextet_nat (b2 % 64) (by omega),
        ih hrest, Option.map_some', Option.some.injEq, List.cons.injEq,
        and_true]
      omega

theorem b64_decode_some_shape (l : List Char) :
    ∀ bs, b64DecodeChunks l = some bs →
      l.length % 4 = 0 ∧ ∀ c ∈ l, ((decSextet c).isSome ∨ c = '=') := by
  induction l using b64DecodeChunks.induct with
  | case1 => intro bs _; simp
  | case2 c0 c1 a b hb ha hmod =>
      intro bs _
      refine ⟨by simp, ?_⟩
      intro c hc
      simp only [List.mem_cons, List.not_mem_nil, or_false] at hc
      rcases hc with rfl | rfl | rfl | rfl
      · exact Or.inl (by simp [ha])
      · exact Or.inl (by simp [hb])
      · exact Or.inr rfl
      · exact Or.inr rfl
  | case3 c0 c1 a b hb ha hmod =>
      intro bs h
      simp [b64DecodeChunks, ha, hb, hmod] at h
  | case4 c0 c1 c2 a b hb ha hc2 c hc hcmod =>
      intro bs _
      refine ⟨by simp, ?_⟩
      intro x hx
      simp only [List.mem_cons, List.not_mem_nil, or_false] at hx
      rcases hx with rfl | rfl | rfl | rfl
      · exact Or.inl (by simp [ha])
      · exact Or.inl (by simp [hb])
      · exact Or.inl (by simp [hc])
      · exact Or.inr rfl
  | case5 c0 c1 c2 a b hb ha hc2 c hc hcmod =>
      intro bs h
      simp [b64DecodeChunks, ha, hb, hc2, hc, hcmod] at h
  | case6 c0 c1 c2 a b hb ha hc2 hc =>
      intro bs h
      simp [b64DecodeChunks, ha, hb, hc2, hc] at h
  | case7 c0 c1 c2 hfail =>
      intro bs h
      rcases ha : decSextet c0 with _ | a
      · simp [b64DecodeChunks, ha] at h
      · rcases hb : decSextet c1 with _ | b
        · simp [b64DecodeChunks, ha, hb] at h
        · exact (hfail a b ha hb).elim
  | case8 c0 c1 c2 rest hrest =>
      intro bs h
      simp [b64DecodeChunks, hrest] at h
  | case9 c0 c1 c2 c3 rest hc3 a b c d hd hc hb ha ih =>
      intro bs h
      simp only [b64DecodeChunks, if_neg hc3, ha, hb, hc, hd] at h
      rcases htail : b64DecodeChunks rest with _ | tail
      · rw [htail] at h; simp at h
      · obtain ⟨hlen, hmem⟩ := ih tail htail
        refine ⟨by simp [Nat.add_mod, hlen], ?_⟩
        intro x hx
        simp only [List.mem_cons] at hx
        rcases hx with rfl | rfl | rfl | rfl | hx
        · exact Or.inl (by simp [ha])
        · exact Or.inl (by simp [hb])
        · exact Or.inl (by simp [hc])
        · exact Or.inl (by simp [hd])
        · exact hmem x hx
  | case10 c0 c1 c2 c3 rest hc3 hfail =>
      intro bs h
      rcases ha : decSextet c0 with _ | a
      · simp [b64DecodeChunks, hc3, ha] at h
      · rcases hb : decSextet c1 with _ | b
        · simp [b64DecodeChunks, hc3, ha, hb] at h
        · rcases hc : decSextet c2 with _ | c
          · simp [b64DecodeChunks, hc3, ha, hb, hc] at h
          · rcases hd : decSextet c3 with _ | d
            · simp [b64DecodeChunks, hc3, ha, hb, hc, hd] at h
            · exact (hfail a b c d ha hb hc hd).elim
  | case11 t hnil hlong =>
      intro bs h
      rcases t with _ | ⟨x0, _ | ⟨x1, _ | ⟨x2, _ | ⟨x3, rest⟩⟩⟩⟩
      · exact absurd rfl hnil
      · simp [b64DecodeChunks] at h
      · simp [b64DecodeChunks] at h
      · simp [b64DecodeChunks] at h
      · exact absurd rfl (hlong x0 x1 x2 x3 rest)

/-! ## UTF-8

Embeds the `String::from_utf8` validation applied by `from_base64` in
`src/message.rs`: bytes must form valid UTF-8 (no truncated sequences, no
overlong forms, no surrogates, nothing above U+10FFFF). -/

/-- UTF-8 encoding of one Unicode scalar value (a Rust `char`). -/
def utf8EncodeChar (n : Nat) : List Nat :=
  if n < 0x80 then [n]
  else if n < 0x800 then [0xC0 + n / 64, 0x80 + n % 64]
  else if n < 0x10000 then [0xE0 + n / 4096, 0x80 + n / 64 % 64, 0x80 + n % 64]
  else [0xF0 + n / 262144, 0x80 + n / 4096 % 64, 0x80 + n / 64 % 64, 0x80 + n % 64]

/-- UTF-8 encoding of a character sequence (the byte content of a Rust `String`). -/
def utf8EncodeList : List Char → List Nat
  | [] => []
  | c :: cs => utf8EncodeChar c.toNat ++ utf8EncodeList cs

/-- Decode one UTF-8 encoded scalar value from the front of a byte list,
with full validation (continuation bytes in `0x80..0xBF`, no overlong forms,
no surrogates, nothing above U+10FFFF), returning the code point and the
remaining bytes. -/
def utf8DecodeOne : List Nat → Option (Nat × List Nat)
  | [] => none
  | b :: rest =>
    if b < 0x80 then some (b, rest)
    else if b < 0xC0 then none
    else if b < 0xE0 then
      match rest with
      | b1 :: rest1 =>
          if (0x80 ≤ b1 ∧ b1 < 0xC0) ∧ 0x80 ≤ (b - 0xC0) * 64 + (b1 - 0x80) then
            some ((b - 0xC0) * 64 + (b1 - 0x80), rest1)
          else none
      | [] => none
    else if b < 0xF0 then
      match rest with
      | b1 :: b2 :: rest1 =>
          if (0x80 ≤ b1 ∧ b1 < 0xC0) ∧ (0x80 ≤ b2 ∧ b2 < 0xC0) ∧
             0x800 ≤ (b - 0xE0) * 4096 + (b1 - 0x80) * 64 + (b2 - 0x80) ∧
             ¬(0xD800 ≤ (b - 0xE0) * 4096 + (b1 - 0x80) * 64 + (b2 - 0x80) ∧
               (b - 0xE0) * 4096 + (b1 - 0x80) * 64 + (b2 - 0x80) < 0xE000) then
            some ((b - 0xE0) * 4096 + (b1 - 0x80) * 64 + (b2 - 0x80), rest1)
          else none
      | _ => none
    else if b < 0xF8 then
      match rest with
      | b1 :: b2 :: b3 :: rest1 =>
          if (0x80 ≤ b1 ∧ b1 < 0xC0) ∧ (0x80 ≤ b2 ∧ b2 < 0xC0) ∧ (0x80 ≤ b3 ∧ b3 < 0xC0) ∧
             0x10000 ≤ (b - 0xF0) * 262144 + (b1 - 0x80) * 4096 + (b2 - 0x80) * 64 + (b3 - 0x80) ∧
             (b - 0xF0) * 262144 + (b1 - 0x80) * 4096 + (b2 - 0x80) * 64 + (b3 - 0x80) < 0x110000 then
            some ((b - 0xF0) * 262144 + (b1 - 0x80) * 4096 + (b2 - 0x80) * 64 + (b3 - 0x80), rest1)
          else none
      | _ => none
    else none

theorem utf8DecodeOne_length (l : List Nat) (n : Nat) (rest1 : List Nat)
    (h : utf8DecodeOne l = some (n, rest1)) : rest1.length < l.length := by
  rcases l with _ | ⟨b, rest⟩
  · simp only [utf8DecodeOne] at h
    exact absurd h (by simp)
  · rw [utf8DecodeOne.eq_def] at h
    iterate 8 (all_goals try split at h)
    all_goals try simp_all
    all_goals omega

/-- Fuel-driven loop for UTF-8 decoding; the fuel only bounds the number of
decoded characters (each character consumes at least one byte), so
`l.length` fuel is always enough. -/
def utf8DecodeFuel : Nat → List Nat → Option (List Char)
  | _, [] => some []
  | 0, _ :: _ => none
  | fuel + 1, b :: rest =>
      match utf8DecodeOne (b :: rest) with
      | some (n, rest1) => (utf8DecodeFuel fuel rest1).map (fun cs => Char.ofNat n :: cs)
      | none => none

/-- UTF-8 decoding of a whole byte list, as Rust `String::from_utf8`. -/
def utf8DecodeList (l : List Nat) : Option (List Char) :=
  utf8DecodeFuel l.length l

theorem utf8DecodeFuel_congr (fuel1 : Nat) :
    ∀ (fuel2 : Nat) (l : List Nat), l.length ≤ fuel1 → l.length ≤ fuel2 →
      utf8DecodeFuel fuel1 l = utf8DecodeFuel fuel2 l := by
  induction fuel1 with
  | zero =>
      intro fuel2 l h1 _
      have hnil : l = [] := List.length_eq_zero.mp (Nat.le_zero.mp h1)
      subst hnil
      cases fuel2 <;> rfl
  | succ fuel ih =>
      intro fuel2 l h1 h2
      rcases l with _ | ⟨b, rest⟩
      · cases fuel2 <;> rfl
      · rcases fuel2 with _ | fuel2
        · simp at h2
        · rw [utf8DecodeFuel, utf8DecodeFuel]
          rcases h0 : utf8DecodeOne (b :: rest) with _ | ⟨n, rest1⟩
          · simp [h0]
          · have hlt := utf8DecodeOne_length _ _ _ h0
            simp only [List.length_cons] at h1 h2 hlt
            simp only [h0]
            rw [ih fuel2 rest1 (by omega) (by omega)]

theorem utf8DecodeList_step (l : List Nat) (hl : l ≠ []) :
    utf8DecodeList l =
      match utf8DecodeOne l with
      | some (n, rest1) => (utf8DecodeList rest1).map (fun cs => Char.ofNat n :: cs)
      | none => none := by
  rcases l with _ | ⟨b, rest⟩
  · exact absurd rfl hl
  · rw [utf8DecodeList]
    simp only [List.length_cons]
    rw [utf8DecodeFuel]
    rcases h0 : utf8DecodeOne (b :: rest) with _ | ⟨n, rest1⟩
    · simp [h0]
    · have hlt := utf8DecodeOne_length _ _ _ h0
      simp only [List.length_cons] at hlt
      simp only [h0]
      rw [utf8DecodeFuel_congr rest.length rest1.length rest1 (by omega) (by omega)]
      rfl

theorem char_toNat_valid (c : Char) :
    c.toNat < 0xD800 ∨ (0xE000 ≤ c.toNat ∧ c.toNat < 0x110000) := by
  have h := c.valid
  simpa [Char.toNat, UInt32.isValidChar, Nat.isValidChar] using h

theorem utf8EncodeChar_lt (n : Nat) (hn : n < 0x110000) :
    ∀ b ∈ utf8EncodeChar n, b < 256 := by
  intro b hb
  unfold utf8EncodeChar at hb
  split at hb
  · simp at hb; omega
  · split at hb
    · simp at hb; omega
    · split at hb
      · simp at hb; omega
      · simp at hb; omega

theorem utf8EncodeChar_ne_nil (n : Nat) : utf8EncodeChar n ≠ [] := by
  unfold utf8EncodeChar
  split
  · simp
  · split
    · simp
    · split <;> simp

theorem utf8DecodeOne_encode (c : Char) (rest : List Nat) :
    utf8DecodeOne (utf8EncodeChar c.toNat ++ rest) = some (c.toNat, rest) := by
  have hv := char_toNat_valid c
  have hmax : c.toNat < 0x110000 := by omega
  rcases Nat.lt_or_ge c.toNat 0x80 with h80 | h80
  · rw [utf8EncodeChar, if_pos h80]
    simp only [List.cons_append, List.nil_append, utf8DecodeOne]
    rw [if_pos h80]
  · rcases Nat.lt_or_ge c.toNat 0x800 with h800 | h800
    · rw [utf8EncodeChar, if_neg (by omega), if_pos h800]
      simp only [List.cons_append, List.nil_append, utf8DecodeOne]
      rw [if_neg (by omega), if_neg (by omega), if_pos (by omega),
        if_pos (by refine ⟨⟨by omega, by omega⟩, by omega⟩)]
      simp only [Option.some.injEq, Prod.mk.injEq]
      exact ⟨by omega, trivial⟩
    · rcases Nat.lt_or_ge c.toNat 0x10000 with h64k | h64k
      · rw [utf8EncodeChar, if_neg (by omega), if_neg (by omega), if_pos h64k]
        simp only [List.cons_append, List.nil_append, utf8DecodeOne]
        rw [if_neg (by omega), if_neg (by omega), if_neg (by omega), if_pos (by omega),
          if_pos (by refine ⟨⟨by omega, by omega⟩, ⟨by omega, by omega⟩, by omega, ?_⟩; omega)]
        simp only [Option.some.injEq, Prod.mk.injEq]
        exact ⟨by omega, trivial⟩
      · rw [utf8EncodeChar, if_neg (by omega), if_neg (by omega), if_neg (by omega)]
        simp only [List.cons_append, List.nil_append, utf8DecodeOne]
        rw [if_neg (by omega), if_neg (by omega), if_neg (by omega), if_neg (by omega),
          if_pos (by omega),
          if_pos (by refine ⟨⟨by omega, by omega⟩, ⟨by omega, by omega⟩,
            ⟨by omega, by omega⟩, by omega, by omega⟩)]
        simp only [Option.some.injEq, Prod.mk.injEq]
        exact ⟨by omega, trivial⟩

theorem utf8_decode_encode_cons (c : Char) (rest : List Nat) :
    utf8DecodeList (utf8EncodeChar c.toNat ++ rest) =
      (utf8DecodeList rest).map (fun cs => c :: cs) := by
  have hne : utf8EncodeChar c.toNat ++ rest ≠ [] := by
    simp [utf8EncodeChar_ne_nil]
  rw [utf8DecodeList_step _ hne, utf8DecodeOne_encode]
  simp only [Char.ofNat_toNat]

theorem utf8_decode_encodeList (cs : List Char) :
    utf8DecodeList (utf8EncodeList cs) = some cs := by
  induction cs with
  | nil => rfl
  | cons c cs ih =>
      rw [utf8EncodeList, utf8_decode_encode_cons, ih]
      rfl

theorem utf8EncodeList_lt (cs : List Char) : ∀ b ∈ utf8EncodeList cs, b < 256 := by
  induction cs with
  | nil => intro b hb; simp [utf8EncodeList] at hb
  | cons c cs ih =>
      intro b hb
      rw [utf8EncodeList, List.mem_append] at hb
      rcases hb with hb | hb
      · exact utf8EncodeChar_lt c.toNat (by have := char_toNat_valid c; omega) b hb
      · exact ih b hb

/-! ## Data model and envelope decoding (`src/message.rs`)

`PubSubMessage` and `Message` mirror the structs in `src/message.rs`; the JSON
deserialization derived by serde is embedded over a small JSON value type.
The error taxonomy follows the spec (§7): structural failures are
`envelopeDecodeError`, base64/UTF-8 failures of the `data` field are
`payloadEncodingError`. -/

/-- A JSON value, the inbound request body shape. -/
inductive Json where
  | null : Json
  | bool : Bool → Json
  | num : Int → Json
  | str : String → Json
  | arr : List Json → Json
  | obj : List (String × Json) → Json

/-- Spec §7 error taxonomy for the decode stage. -/
inductive DecodeError where
  | envelopeDecodeError : DecodeError
  | payloadEncodingError : DecodeError
deriving DecidableEq

/-- Modelled from the spec: the `Attributes` struct lives in
`message/attributes.rs`, which is not under `src/`.  Per spec §3 it is a
string-keyed map always containing `type_url` plus arbitrary further
event-specific keys. -/
structure Attributes where
  type_url : String
  others : List (String × String)
deriving DecidableEq

/-- The inner `Message` struct of `src/message.rs` (attributes, message_id,
publish_time, base64-decoded data).  The `project_name` field backs
`with_project_name`; it is modelled from spec §3 (optional, absent at decode
time) since the `impl Message` block is not under `src/`. -/
structure Message where
  attributes : Attributes
  message_id : String
  publish_time : String
  data : String
  project_name : Option String
deriving DecidableEq

/-- The top-level `PubSubMessage` struct of `src/message.rs`. -/
structure PubSubMessage where
  message : Message
  subscription : String
deriving DecidableEq

/-- The `from_base64` deserializer of `src/message.rs`:
`BASE64_STANDARD.decode` then `String::from_utf8`, each failure mapped into
the decode error for the embedded payload (`de::Error::custom`). -/
def from_base64 (s : String) : Except DecodeError String :=
  match b64DecodeChunks s.data with
  | none => .error .payloadEncodingError
  | some bytes =>
      match utf8DecodeList bytes with
      | none => .error .payloadEncodingError
      | some cs => .ok (String.mk cs)

/-- Field lookup in a JSON object (first occurrence wins). -/
def getField (fields : List (String × Json)) (k : String) : Option Json :=
  (fields.find? (fun p => p.1 == k)).map (fun p => p.2)

/-- The string content of a JSON value, if it is a string. -/
def asStr : Json → Option String
  | .str s => some s
  | _ => none

/-- Modelled from the spec: structural decoding of the attributes map
(`message/attributes.rs` is not under `src/`): an object of string values
with `type_url` required; remaining keys are kept as extra attributes. -/
def decodeAttributes : Json → Option Attributes
  | .obj fields =>
      match getField fields "type_url" with
      | some (.str t) =>
          if fields.all (fun p => (asStr p.2).isSome) then
            some ⟨t, fields.filterMap (fun p =>
              if p.1 == "type_url" then none
              else (asStr p.2).map (fun v => (p.1, v)))⟩
          else none
      | _ => none
  | _ => none

/-- The structurally extracted message before the `data` field is decoded:
the wire form, with `data` still a base64 string. -/
structure RawMessage where
  attributes : Attributes
  message_id : String
  publish_time : String
  data : String
deriving DecidableEq

/-- Structural part of the serde-derived `Deserialize` for `Message`:
all four fields must be present with the right shapes. -/
def extractMessage : Json → Option RawMessage
  | .obj fields =>
      match getField fields "attributes", getField fields "message_id",
            getField fields "publish_time", getField fields "data" with
      | some aj, some (.str mid), some (.str pt), some (.str dat) =>
          (decodeAttributes aj).map (fun attrs => ⟨attrs, mid, pt, dat⟩)
      | _, _, _, _ => none
  | _ => none

/-- Structural part of the serde-derived `Deserialize` for `PubSubMessage`:
a `message` object and a `subscription` string. -/
def extractEnvelope : Json → Option (RawMessage × String)
  | .obj fields =>
      match getField fields "message", getField fields "subscription" with
      | some mj, some (.str sub) => (extractMessage mj).map (fun r => (r, sub))
      | _, _ => none
  | _ => none

/-- Decoding of the inbound JSON body into a `PubSubMessage`, as the
serde-derived `Deserialize` on `PubSubMessage`/`Message` plus the
`from_base64` field deserializer: structural failures are
`envelopeDecodeError`; base64/UTF-8 failures are `payloadEncodingError`;
`project_name` is absent at decode time. -/
def decodePubSubMessage (j : Json) : Except DecodeError PubSubMessage :=
  match extractEnvelope j with
  | none => .error .envelopeDecodeError
  | some (raw, sub) =>
      match from_base64 raw.data with
      | .error e => .error e
      | .ok d => .ok ⟨⟨raw.attributes, raw.message_id, raw.publish_time, d, none⟩, sub⟩

/-- Wire encoding of the attributes map (inverse of `decodeAttributes`). -/
def encodeAttributes (a : Attributes) : Json :=
  .obj (("type_url", .str a.type_url) :: a.others.map (fun p => (p.1, .str p.2)))

/-- Modelled from the spec: the §8 wire encoder producing valid Envelope JSON
from a message, base64-encoding the UTF-8 bytes of `data`.  (The source's
derived `Serialize` writes `data` as plain text — there is no
`serialize_with` — so the spec's `encode` is this wire construction, not the
derive.) -/
def encodeMessage (m : Message) : Json :=
  .obj [("attributes", encodeAttributes m.attributes),
        ("message_id", .str m.message_id),
        ("publish_time", .str m.publish_time),
        ("data", .str (String.mk (b64EncodeBytes (utf8EncodeList m.data.data))))]

/-- Modelled from the spec: wire encoding of the whole envelope. -/
def encodePubSubMessage (psm : PubSubMessage) : Json :=
  .obj [("message", encodeMessage psm.message),
        ("subscription", .str psm.subscription)]

theorem from_base64_encode (d : String) :
    from_base64 (String.mk (b64EncodeBytes (utf8EncodeList d.data))) = .ok d := by
  rw [from_base64]
  have h1 : b64DecodeChunks (String.mk (b64EncodeBytes (utf8EncodeList d.data))).data
      = some (utf8EncodeList d.data) :=
    b64_decode_encode _ (utf8EncodeList_lt d.data)
  rw [h1]
  simp only [utf8_decode_encodeList]

theorem asStr_str (v : String) : asStr (Json.str v) = some v := rfl

theorem filterMap_encoded_attrs (l : List (String × String))
    (h : ∀ kv ∈ l, kv.1 ≠ "type_url") :
    (l.map (fun p => (p.1, Json.str p.2))).filterMap (fun p =>
      if p.1 == "type_url" then none
      else (asStr p.2).map (fun v => (p.1, v))) = l := by
  induction l with
  | nil => rfl
  | cons kv tl ih =>
      have hk : (kv.1 == "type_url") = false := by
        have := h kv (by simp)
        simpa using this
      have h2 : ∀ kv ∈ tl, kv.1 ≠ "type_url" :=
        fun x hx => h x (List.mem_cons_of_mem _ hx)
      simp only [List.map_cons, List.filterMap_cons, hk, Bool.false_eq_true,
        if_false, asStr_str, Option.map_some']
      rw [ih h2]

theorem filterMap_fields (t : String) (l : List (String × String))
    (h : ∀ kv ∈ l, kv.1 ≠ "type_url") :
    ((("type_url", Json.str t) :: l.map (fun p => (p.1, Json.str p.2))).filterMap
      (fun p =>
        if p.1 == "type_url" then none
        else (asStr p.2).map (fun v => (p.1, v)))) = l := by
  simp only [List.filterMap_cons, beq_self_eq_true, if_true]
  exact filterMap_encoded_attrs l h

theorem decodeAttributes_encode (a : Attributes)
    (h : ∀ kv ∈ a.others, kv.1 ≠ "type_url") :
    decodeAttributes (encodeAttributes a) = some a := by
  have hg : getField (("type_url", Json.str a.type_url) ::
      a.others.map (fun p => (p.1, Json.str p.2))) "type_url"
      = some (Json.str a.type_url) := rfl
  have hall : ((("type_url", Json.str a.type_url) ::
      a.others.map (fun p => (p.1, Json.str p.2))).all
        (fun p => (asStr p.2).isSome)) = true := by
    simp [List.all_cons, List.all_map, Function.comp, asStr_str]
    intro a1 b x x1 hmem hx hb
    subst hx
    subst hb
    simp [asStr_str]
  rw [encodeAttributes, decodeAttributes]
  simp only [hg]
  rw [if_pos hall, filterMap_fields a.type_url a.others h]

theorem extractMessage_encode (m : Message)
    (h : ∀ kv ∈ m.attributes.others, kv.1 ≠ "type_url") :
    extractMessage (encodeMessage m) =
      some ⟨m.attributes, m.message_id, m.publish_time,
            String.mk (b64EncodeBytes (utf8EncodeList m.data.data))⟩ := by
  have h1 : getField [("attributes", encodeAttributes m.attributes),
      ("message_id", Json.str m.message_id),
      ("publish_time", Json.str m.publish_time),
      ("data", Json.str (String.mk (b64EncodeBytes (utf8EncodeList m.data.data))))]
      "attributes" = some (encodeAttributes m.attributes) := rfl
  have h2 : getField [("attributes", encodeAttributes m.attributes),
      ("message_id", Json.str m.message_id),
      ("publish_time", Json.str m.publish_time),
      ("data", Json.str (String.mk (b64EncodeBytes (utf8EncodeList m.data.data))))]
      "message_id" = some (Json.str m.message_id) := rfl
  have h3 : getField [("attributes", encodeAttributes m.attributes),
      ("message_id", Json.str m.message_id),
      ("publish_time", Json.str m.publish_time),
      ("data", Json.str (String.mk (b64EncodeBytes (utf8EncodeList m.data.data))))]
      "publish_time" = some (Json.str m.publish_time) := rfl
  have h4 : getField [("attributes", encodeAttributes m.attributes),
      ("message_id", Json.str m.message_id),
      ("publish_time", Json.str m.publish_time),
      ("data", Json.str (String.mk (b64EncodeBytes (utf8EncodeList m.data.data))))]
      "data" = some (Json.str (String.mk (b64EncodeBytes (utf8EncodeList m.data.data)))) := rfl
  rw [encodeMessage, extractMessage]
  simp only [h1, h2, h3, h4, decodeAttributes_encode m.attributes h, Option.map_some']

theorem extractEnvelope_encode (psm : PubSubMessage)
    (h : ∀ kv ∈ psm.message.attributes.others, kv.1 ≠ "type_url") :
    extractEnvelope (encodePubSubMessage psm) =
      some (⟨psm.message.attributes, psm.message.message_id, psm.message.publish_time,
             String.mk (b64EncodeBytes (utf8EncodeList psm.message.data.data))⟩,
            psm.subscription) := by
  have h1 : getField [("message", encodeMessage psm.message),
      ("subscription", Json.str psm.subscription)] "message"
      = some (encodeMessage psm.message) := rfl
  have h2 : getField [("message", encodeMessage psm.message),
      ("subscription", Json.str psm.subscription)] "subscription"
      = some (Json.str psm.subscription) := rfl
  rw [encodePubSubMessage, extractEnvelope]
  simp only [h1, h2, extractMessage_encode psm.message h, Option.map_some']

theorem decode_encode_psm (psm : PubSubMessage)
    (h : ∀ kv ∈ psm.message.attributes.others, kv.1 ≠ "type_url") :
    decodePubSubMessage (encodePubSubMessage psm) =
      .ok ⟨⟨psm.message.attributes, psm.message.message_id, psm.message.publish_time,
            psm.message.data, none⟩, psm.subscription⟩ := by
  rw [decodePubSubMessage]
  simp only [extractEnvelope_encode psm h, from_base64_encode]

/-! ## Classifier, enricher, formatter, webhook payload (spec-modelled)

The `Attributes` impl (`message/attributes.rs`), the `impl Message` block and
`message/slack.rs` are not under `src/`; the definitions below are modelled
from spec §3-§4. -/

/-- The derived event kind (spec §3), a closed enumeration. -/
inductive EventKind where
  | securityBulletinEvent : EventKind
  | upgradeAvailableEvent : EventKind
  | upgradeEvent : EventKind
  | unknown : EventKind
deriving DecidableEq

/-- The portion of a character list after its last '.', the whole list when
no '.' occurs. -/
def afterLastDot (l : List Char) : List Char :=
  (l.reverse.takeWhile (fun c => c != '.')).reverse

/-- The portion of a string after its last '.'. -/
def suffixAfterLastDot (s : String) : String :=
  String.mk (afterLastDot s.data)

/-- The known `type_url` namespace of the three event kinds (spec §4.2). -/
def typeUrlPfx : String := "type.googleapis.com/google.container.v1beta1."

/-- Modelled from the spec (§4.2): `classify` matches the portion of
`type_url` after the last '.' exactly and case-sensitively against the three
event-name literals; any non-match is `unknown`.  (`message/attributes.rs`
is not under `src/`.) -/
def classify (a : Attributes) : EventKind :=
  if suffixAfterLastDot a.type_url = "SecurityBulletinEvent" then .securityBulletinEvent
  else if suffixAfterLastDot a.type_url = "UpgradeAvailableEvent" then .upgradeAvailableEvent
  else if suffixAfterLastDot a.type_url = "UpgradeEvent" then .upgradeEvent
  else .unknown

/-- Modelled from the spec: the attribute key carrying the node-pool
identifier.  Spec §9 leaves the precise key open; the proofs below do not
depend on its value. -/
def nodePoolKey : String := "nodepool_name"

/-- Whether the attribute map carries a node-pool identifier (spec §4.2). -/
def hasNodePoolId (a : Attributes) : Bool :=
  a.others.any (fun kv => kv.1 == nodePoolKey)

/-- Modelled from the spec (§4.2): the noise-suppression predicate — true
exactly for `UpgradeAvailableEvent` messages carrying a node-pool
identifier.  (`message/attributes.rs` is not under `src/`.) -/
def is_node_pool_upgrade_available_event (a : Attributes) : Bool :=
  decide (classify a = .upgradeAvailableEvent) && hasNodePoolId a

/-- Modelled from the spec (§4.3): the enricher attaches a project
identifier to the message.  (The `impl Message` block is not under `src/`.) -/
def with_project_name (m : Message) (project : String) : Message :=
  { m with project_name := some project }

/-- Modelled from the spec (§4.4): the console deep-link fragment, present
only when a project identifier was attached. -/
def consoleLink (m : Message) : String :=
  match m.project_name with
  | some p => " https://console.cloud.google.com/kubernetes/list?project=" ++ p
  | none => ""

/-- Modelled from the spec (§4.4): `fmt` renders a plain-text line with a
per-kind template; the `unknown` fallback uses only `type_url` and `data`.
(The `impl Message` block is not under `src/`.) -/
def fmt (m : Message) : String :=
  match classify m.attributes with
  | .securityBulletinEvent => "Security bulletin published: " ++ m.data ++ consoleLink m
  | .upgradeAvailableEvent => "Upgrade available: " ++ m.data ++ consoleLink m
  | .upgradeEvent => "Upgrade started: " ++ m.data ++ consoleLink m
  | .unknown => "Unhandled event type " ++ m.attributes.type_url ++ ": " ++ m.data

/-- Modelled from the spec (§3, §4.5): the chat-webhook structured payload,
built from the same classification and formatting data.
(`message/slack.rs` is not under `src/`.) -/
structure WebhookMessage where
  kind : EventKind
  text : String
deriving DecidableEq

/-- Modelled from the spec (§4.5): payload construction from an enriched
message, reusing the classifier. -/
def toWebhookPayload (m : Message) : WebhookMessage :=
  ⟨classify m.attributes, fmt m⟩

/-- Modelled from the spec: `serde_json::to_string` of the webhook payload
(the `Serialize` impl lives in `message/slack.rs`, not under `src/`). -/
def serializeWebhookMessage (w : WebhookMessage) : String :=
  "\x7b\"text\":\"" ++ w.text ++ "\"\x7d"

/-! ## The request handler (`src/main.rs`) -/

/-- The ambient environment read by `handler` in `src/main.rs`:
`GCP_PROJECT` and `SLACK_WEBHOOK` (`none` models an absent variable). -/
structure Env where
  gcpProject : Option String
  slackWebhook : Option String

/-- What `handler` produces per request: the formatted string it returns
(`Ok(formatted)`) and the optional serialized webhook message. -/
structure HandlerResult where
  formatted : String
  slack_message : Option String
deriving DecidableEq

/-- The enrichment step at the top of `handler` (`src/main.rs` lines 61-64):
enrich with the project name when `GCP_PROJECT` is set, else pass through. -/
def enrichStep (g : Option String) (m : Message) : Message :=
  match g with
  | some project_name => with_project_name m project_name
  | none => m

/-- The `handler` of `src/main.rs` (lines 59-93) as a pure function of the
environment and the already-decoded `PubSubMessage`: enrich, format, and
build the serialized webhook message only when `SLACK_WEBHOOK` is set and
the suppression predicate is false. -/
def handler (env : Env) (psm : PubSubMessage) : HandlerResult :=
  let message := enrichStep env.gcpProject psm.message
  let formatted := fmt message
  let slack_message :=
    match env.slackWebhook with
    | some _ =>
        if is_node_pool_upgrade_available_event message.attributes then none
        else some (serializeWebhookMessage (toWebhookPayload message))
    | none => none
  ⟨formatted, slack_message⟩

/-! ## Helper lemmas -/

theorem takeWhile_append_all {α : Type} (p : α → Bool) (xs ys : List α)
    (h : ∀ x ∈ xs, p x = true) :
    (xs ++ ys).takeWhile p = xs ++ ys.takeWhile p := by
  induction xs with
  | nil => simp
  | cons a tl ih =>
      have ha : p a = true := h a (by simp)
      simp [List.takeWhile_cons, ha,
        ih (fun x hx => h x (List.mem_cons_of_mem _ hx))]

theorem afterLastDot_pfx_append (nm : List Char) (h : '.' ∉ nm) :
    afterLastDot (typeUrlPfx.data ++ nm) = nm := by
  unfold afterLastDot
  have hall : ∀ x ∈ nm.reverse, (x != '.') = true := by
    intro x hx
    rw [List.mem_reverse] at hx
    simp only [bne_iff_ne, ne_eq]
    exact fun hEq => h (hEq ▸ hx)
  rw [List.reverse_append,
    takeWhile_append_all _ nm.reverse typeUrlPfx.data.reverse hall]
  have hpfx : typeUrlPfx.data.reverse.takeWhile (fun c => c != '.') = [] := rfl
  rw [hpfx, List.append_nil, List.reverse_reverse]

theorem suffix_pfx (nm : String) (h : '.' ∉ nm.data) :
    suffixAfterLastDot (typeUrlPfx ++ nm) = nm := by
  unfold suffixAfterLastDot
  rw [String.data_append, afterLastDot_pfx_append nm.data h]

theorem classify_typeUrl_only (a b : Attributes) (h : a.type_url = b.type_url) :
    classify a = classify b := by
  unfold classify
  rw [h]

theorem with_project_name_frame (m : Message) (p : String) :
    (with_project_name m p).attributes = m.attributes ∧
    (with_project_name m p).message_id = m.message_id ∧
    (with_project_name m p).publish_time = m.publish_time ∧
    (with_project_name m p).data = m.data ∧
    (with_project_name m p).project_name = some p :=
  ⟨rfl, rfl, rfl, rfl, rfl⟩

theorem enrichStep_attributes (g : Option String) (m : Message) :
    (enrichStep g m).attributes = m.attributes := by
  cases g <;> rfl

theorem enrichStep_none (m : Message) : enrichStep none m = m := rfl

theorem handler_formatted (env : Env) (psm : PubSubMessage) :
    (handler env psm).formatted = fmt (enrichStep env.gcpProject psm.message) := rfl

theorem handler_slack_none (g : Option String) (psm : PubSubMessage) :
    (handler ⟨g, none⟩ psm).slack_message = none := rfl

theorem handler_slack_some (g : Option String) (v : String) (psm : PubSubMessage) :
    (handler ⟨g, some v⟩ psm).slack_message =
      if is_node_pool_upgrade_available_event (enrichStep g psm.message).attributes
      then none
      else some (serializeWebhookMessage (toWebhookPayload (enrichStep g psm.message))) := rfl

theorem fmt_unknown_eq (m : Message) (h : classify m.attributes = .unknown) :
    fmt m = "Unhandled event type " ++ m.attributes.type_url ++ ": " ++ m.data := by
  unfold fmt
  rw [h]

theorem fmt_data_ne_nil (m : Message) : (fmt m).data ≠ [] := by
  have h1 : ("Security bulletin published: ").data ≠ [] := by decide
  have h2 : ("Upgrade available: ").data ≠ [] := by decide
  have h3 : ("Upgrade started: ").data ≠ [] := by decide
  have h4 : ("Unhandled event type ").data ≠ [] := by decide
  unfold fmt
  split <;> simp [String.data_append, List.append_eq_nil, h1, h2, h3, h4]
theorem from_base64_error_iff (s : String) :
    from_base64 s = .error .payloadEncodingError ↔
      (b64DecodeChunks s.data = none ∨
        ∃ bs, b64DecodeChunks s.data = some bs ∧ utf8DecodeList bs = none) := by
  unfold from_base64
  rcases hb : b64DecodeChunks s.data with _ | bs
  · simp
  · rcases hu : utf8DecodeList bs with _ | cs
    · simp [hu]
    · simp [hu]

theorem from_base64_error_payload (s : String) (e : DecodeError)
    (h : from_base64 s = .error e) : e = .payloadEncodingError := by
  unfold from_base64 at h
  rcases hb : b64DecodeChunks s.data with _ | bs <;> simp only [hb] at h
  · simpa using h.symm
  · rcases hu : utf8DecodeList bs with _ | cs <;> simp only [hu] at h
    · simpa using h.symm
    · simp at h

theorem b64_fail_of_badchar (l : List Char) (c : Char) (hc : c ∈ l)
    (hdec : decSextet c = none) (hpad : c ≠ '=') : b64DecodeChunks l = none := by
  rcases h : b64DecodeChunks l with _ | bs
  · rfl
  · exfalso
    rcases (b64_decode_some_shape l bs h).2 c hc with hs | hs
    · rw [hdec] at hs
      simp at hs
    · exact hpad hs

theorem b64_fail_of_badlen (l : List Char) (hlen : l.length % 4 ≠ 0) :
    b64DecodeChunks l = none := by
  rcases h : b64DecodeChunks l with _ | bs
  · rfl
  · exact absurd (b64_decode_some_shape l bs h).1 hlen

/-! ## Claim theorems -/

/-- Shared concrete inputs for the witnesses. -/
def psmW : PubSubMessage :=
  ⟨⟨⟨typeUrlPfx ++ "UpgradeEvent", [("payload", "x")]⟩, "id-1", "t-1", "Hi", none⟩,
   "sub-1"⟩

def attrsUE : Attributes := ⟨typeUrlPfx ++ "UpgradeEvent", [(nodePoolKey, "np-1")]⟩

def mUnknown : Message := ⟨⟨"com.example.Other", []⟩, "id-2", "t-2", "payload", none⟩

def rawBad : RawMessage := ⟨⟨"t.u", []⟩, "1", "2", "!!!"⟩

def jBad : Json :=
  .obj [("message", .obj [("attributes", .obj [("type_url", .str "t.u")]),
                          ("message_id", .str "1"),
                          ("publish_time", .str "2"),
                          ("data", .str "!!!")]),
        ("subscription", .str "s")]

/-- C1: for every valid Envelope JSON whose data field is correctly
base64-encoded UTF-8 — i.e. every envelope in the image of the wire encoder —
decoding succeeds, and decode(encode(message)) reproduces the original
attributes, message_id, publish_time, subscription and the literal decoded
data text. -/
theorem C1_decode_encode_roundtrip (psm : PubSubMessage)
    (h : ∀ kv ∈ psm.message.attributes.others, kv.1 ≠ "type_url") :
    ∃ out, decodePubSubMessage (encodePubSubMessage psm) = .ok out ∧
      out.message.attributes = psm.message.attributes ∧
      out.message.message_id = psm.message.message_id ∧
      out.message.publish_time = psm.message.publish_time ∧
      out.message.data = psm.message.data ∧
      out.subscription = psm.subscription :=
  ⟨_, decode_encode_psm psm h, rfl, rfl, rfl, rfl, rfl⟩

theorem C1_witness :
    (∀ kv ∈ psmW.message.attributes.others, kv.1 ≠ "type_url") ∧
    ∃ out, decodePubSubMessage (encodePubSubMessage psmW) = .ok out ∧
      out.message.attributes = psmW.message.attributes ∧
      out.message.message_id = psmW.message.message_id ∧
      out.message.publish_time = psmW.message.publish_time ∧
      out.message.data = psmW.message.data ∧
      out.subscription = psmW.subscription :=
  ⟨by decide, C1_decode_encode_roundtrip psmW (by decide)⟩

/-- C2: decode failures are classified — structurally malformed JSON yields
`envelopeDecodeError`; invalid base64 or invalid UTF-8 in the data field of a
structurally well-formed envelope yields `payloadEncodingError`; and any
successful decode is a completely constructed `PubSubMessage` (no partial
value). -/
theorem C2_error_classes (j : Json) :
    (extractEnvelope j = none → decodePubSubMessage j = .error .envelopeDecodeError) ∧
    (∀ raw sub, extractEnvelope j = some (raw, sub) →
      (decodePubSubMessage j = .error .payloadEncodingError ↔
        (b64DecodeChunks raw.data.data = none ∨
          ∃ bs, b64DecodeChunks raw.data.data = some bs ∧ utf8DecodeList bs = none))) ∧
    (∀ m, decodePubSubMessage j = .ok m →
      ∃ raw sub d, extractEnvelope j = some (raw, sub) ∧
        from_base64 raw.data = .ok d ∧
        m = ⟨⟨raw.attributes, raw.message_id, raw.publish_time, d, none⟩, sub⟩) := by
  refine ⟨?_, ?_, ?_⟩
  · intro he
    unfold decodePubSubMessage
    simp only [he]
  · intro raw sub he
    unfold decodePubSubMessage
    simp only [he]
    rcases hf : from_base64 raw.data with e | d
    · have he2 := from_base64_error_payload raw.data e hf
      subst he2
      simp only [hf]
      constructor
      · intro _
        exact (from_base64_error_iff raw.data).mp hf
      · intro _
        trivial
    · simp only [hf]
      constructor
      · intro hcontra
        simp at hcontra
      · intro hr
        exfalso
        have hcontra : from_base64 raw.data = .error .payloadEncodingError :=
          (from_base64_error_iff raw.data).mpr hr
        rw [hf] at hcontra
        simp at hcontra
  · intro m hm
    unfold decodePubSubMessage at hm
    rcases he : extractEnvelope j with _ | ⟨raw, sub⟩ <;> simp only [he] at hm
    · simp at hm
    · rcases hf : from_base64 raw.data with e | d <;> simp only [hf] at hm
      · simp at hm
      · simp only [Except.ok.injEq] at hm
        exact ⟨raw, sub, d, rfl, hf, hm.symm⟩

theorem C2_witness :
    extractEnvelope jBad = some (rawBad, "s") ∧
    decodePubSubMessage jBad = .error .payloadEncodingError :=
  ⟨rfl, ((C2_error_classes jBad).2.1 rawBad "s" rfl).mpr (Or.inl rfl)⟩

/-- C3: per decoded request at most one `WebhookMessage` is built, and one is
built exactly when a webhook target is configured in the environment and the
suppression predicate on the message attributes is false. -/
theorem C3_webhook_exactly_when (env : Env) (psm : PubSubMessage) :
    (handler env psm).slack_message.isSome = true ↔
      (env.slackWebhook.isSome = true ∧
        is_node_pool_upgrade_available_event psm.message.attributes = false) := by
  rcases env with ⟨g, _ | v⟩
  · simp [handler_slack_none]
  · rw [show (handler ⟨g, some v⟩ psm).slack_message =
        (if is_node_pool_upgrade_available_event
            (enrichStep g psm.message).attributes then none
         else some (serializeWebhookMessage
            (toWebhookPayload (enrichStep g psm.message)))) from rfl,
      enrichStep_attributes]
    cases hp : is_node_pool_upgrade_available_event psm.message.attributes <;>
      simp [hp]

/-- C4: the suppression predicate holds exactly for attribute maps classified
`UpgradeAvailableEvent` that carry a node-pool identifier, and is false for
every other event kind, so no other kind is ever suppressed. -/
theorem C4_suppression_predicate (a : Attributes) :
    (is_node_pool_upgrade_available_event a = true ↔
      (classify a = .upgradeAvailableEvent ∧ hasNodePoolId a = true)) ∧
    (classify a ≠ .upgradeAvailableEvent →
      is_node_pool_upgrade_available_event a = false) := by
  unfold is_node_pool_upgrade_available_event
  constructor
  · simp [Bool.and_eq_true, decide_eq_true_iff]
  · intro h
    simp [h]

theorem C4_witness : is_node_pool_upgrade_available_event attrsUE = false :=
  (C4_suppression_predicate attrsUE).2 (by decide)

/-- C5: exactly one rendered plain-text string is produced and returned per
decoded request — it is the formatter output on the enriched message,
independent of the webhook configuration and of the suppression predicate. -/
theorem C5_formatted_always (g : Option String) (w w' : Option String)
    (psm : PubSubMessage) :
    (handler ⟨g, w⟩ psm).formatted = fmt (enrichStep g psm.message) ∧
    (handler ⟨g, w⟩ psm).formatted = (handler ⟨g, w'⟩ psm).formatted :=
  ⟨rfl, rfl⟩

/-- C6: `classify` is a pure deterministic function of `type_url` alone; it
matches the portion after the last '.' exactly and case-sensitively against
the three event-name literals, yields `unknown` on every non-match, and on
`type_url`s of the known-prefix form the matched portion is exactly the
trailing event name. -/
theorem C6_classify_exact (a b : Attributes) (h : a.type_url = b.type_url) :
    classify a = classify b ∧
    (classify a = .securityBulletinEvent ↔
      suffixAfterLastDot a.type_url = "SecurityBulletinEvent") ∧
    (classify a = .upgradeAvailableEvent ↔
      suffixAfterLastDot a.type_url = "UpgradeAvailableEvent") ∧
    (classify a = .upgradeEvent ↔
      suffixAfterLastDot a.type_url = "UpgradeEvent") ∧
    (classify a = .unknown ↔
      (suffixAfterLastDot a.type_url ≠ "SecurityBulletinEvent" ∧
       suffixAfterLastDot a.type_url ≠ "UpgradeAvailableEvent" ∧
       suffixAfterLastDot a.type_url ≠ "UpgradeEvent")) ∧
    (∀ nm : String, '.' ∉ nm.data → suffixAfterLastDot (typeUrlPfx ++ nm) = nm) := by
  refine ⟨classify_typeUrl_only a b h, ?_, ?_, ?_, ?_,
    fun nm hnm => suffix_pfx nm hnm⟩ <;>
    · unfold classify
      split_ifs <;> simp_all

theorem C6_witness :
    suffixAfterLastDot (typeUrlPfx ++ "UpgradeEvent") = "UpgradeEvent" :=
  (C6_classify_exact attrsUE attrsUE rfl).2.2.2.2.2 "UpgradeEvent" (by decide)

/-- C7: the formatter is total — its output is never empty for any event
kind — and on the `unknown` kind the output contains the original `type_url`
and the decoded data text verbatim. -/
theorem C7_format_total (m : Message) :
    (fmt m).data ≠ [] ∧
    (classify m.attributes = .unknown →
      m.attributes.type_url.data <:+: (fmt m).data ∧
      m.data.data <:+: (fmt m).data) := by
  refine ⟨fmt_data_ne_nil m, fun h => ?_⟩
  rw [fmt_unknown_eq m h]
  constructor
  · exact ⟨("Unhandled event type ").data, (": ").data ++ m.data.data,
      by simp [String.data_append, List.append_assoc]⟩
  · exact ⟨("Unhandled event type ").data ++ m.attributes.type_url.data ++ (": ").data,
      [], by simp [String.data_append, List.append_assoc]⟩

theorem C7_witness :
    mUnknown.attributes.type_url.data <:+: (fmt mUnknown).data ∧
    mUnknown.data.data <:+: (fmt mUnknown).data :=
  (C7_format_total mUnknown).2 (by decide)

/-- C8: enrichment is a pure augmentation — `with_project_name` only sets the
project identifier and leaves data, attributes, message_id and publish_time
unchanged; with no project in the environment the message passes through
unenriched. -/
theorem C8_enrichment_frame (m : Message) (p : String) :
    (with_project_name m p).data = m.data ∧
    (with_project_name m p).attributes = m.attributes ∧
    (with_project_name m p).message_id = m.message_id ∧
    (with_project_name m p).publish_time = m.publish_time ∧
    (with_project_name m p).project_name = some p ∧
    enrichStep none m = m :=
  ⟨rfl, rfl, rfl, rfl, rfl, rfl⟩

/-- C9: the webhook branch is taken whenever `SLACK_WEBHOOK` is set to any
value at all — the bound value is never inspected, so the handler output is
identical for any two values, and a message is built iff the suppression
predicate is false. -/
theorem C9_webhook_presence_only (g : Option String) (v v2 : String)
    (psm : PubSubMessage) :
    handler ⟨g, some v⟩ psm = handler ⟨g, some v2⟩ psm ∧
    ((handler ⟨g, some v⟩ psm).slack_message.isSome = true ↔
      is_node_pool_upgrade_available_event psm.message.attributes = false) := by
  constructor
  · rfl
  · rw [show (handler ⟨g, some v⟩ psm).slack_message =
        (if is_node_pool_upgrade_available_event
            (enrichStep g psm.message).attributes then none
         else some (serializeWebhookMessage
            (toWebhookPayload (enrichStep g psm.message)))) from rfl,
      enrichStep_attributes]
    cases hp : is_node_pool_upgrade_available_event psm.message.attributes <;>
      simp [hp]

/-- C10: the data decoder accepts only the standard base64 alphabet with
canonical padding — any input containing a URL-safe-alphabet character
('-' or '_'), or whose length is not a multiple of four (incorrect padding),
is rejected with a payload-encoding error. -/
theorem C10_strict_base64 (s : String) :
    (('-' ∈ s.data ∨ '_' ∈ s.data) →
      from_base64 s = .error .payloadEncodingError) ∧
    (s.data.length % 4 ≠ 0 → from_base64 s = .error .payloadEncodingError) := by
  constructor
  · intro hc
    unfold from_base64
    rcases hc with hc | hc
    · rw [b64_fail_of_badchar s.data _ hc (by decide) (by decide)]
    · rw [b64_fail_of_badchar s.data _ hc (by decide) (by decide)]
  · intro hlen
    unfold from_base64
    rw [b64_fail_of_badlen s.data hlen]

theorem C10_witness :
    from_base64 "S-k=" = .error .payloadEncodingError ∧
    from_base64 "SGk" = .error .payloadEncodingError :=
  ⟨(C10_strict_base64 "S-k=").1 (Or.inl (by decide)),
   (C10_strict_base64 "SGk").2 (by decide)⟩

end GkeNotif
